import Mathlib

/-!
Verification of the workflow-graph core: the dependency-graph validation of
`src/lib.rs`, the mock chained event store of
`tests/infrastructure/test_event_stream.rs`, and the command router of
`tests/infrastructure/test_message_routing.rs`, shallowly embedded in Lean.
Rust `HashMap`s are embedded as association lists (lookup returns the first
binding; a `HashMap` never holds duplicate keys, which theorems assume through
explicit `Nodup` hypotheses where the iteration order of keys matters).
-/

namespace WorkflowGraphV

/-- Step identifiers (`StepId` wraps a uuid in the source; an opaque id). -/
abbrev StepId := Nat

/-- Modelled from the spec: step type, the closed set named in §3 of the spec
(the concrete enum lives in the external `cim-domain-workflow` crate). -/
inductive StepType where
  | Manual | Automated | Approval
deriving DecidableEq, Repr

/-- Modelled from the spec: step status set of §3 (external crate). -/
inductive StepStatus where
  | Pending | Ready | InProgress | Completed | Failed | Skipped
deriving DecidableEq, Repr

/-- Modelled from the spec: workflow status set of §3 (external crate). -/
inductive WorkflowStatus where
  | Draft | Running | Completed | Cancelled | Failed
deriving DecidableEq, Repr

/-- Modelled from the spec: the step record of the external workflow
aggregate; `src/lib.rs` reads the fields `id`, `step_type`, `status` and
`dependencies`. -/
structure Step where
  id : StepId
  name : String
  description : String
  step_type : StepType
  status : StepStatus
  dependencies : List StepId
  estimated_duration_minutes : Option Nat
  assigned_to : Option String
deriving DecidableEq, Repr

/-- Association-list lookup: the embedding of `HashMap::get`. -/
def lookupA {κ α : Type} [DecidableEq κ] : List (κ × α) → κ → Option α
  | [], _ => none
  | (k, v) :: rest, key => if k = key then some v else lookupA rest key

/-- Association-list insert (replace the binding if present, else append):
the embedding of `HashMap::insert`. -/
def insertA {κ α : Type} [DecidableEq κ] : List (κ × α) → κ → α → List (κ × α)
  | [], key, v => [(key, v)]
  | (k, w) :: rest, key, v =>
    if k = key then (key, v) :: rest else (k, w) :: insertA rest key v

/-- Modelled from the spec: the slice of the external `Workflow` aggregate
that `src/lib.rs` reads and writes (its step map, status and metadata). -/
structure Workflow where
  id : Nat
  name : String
  description : String
  status : WorkflowStatus
  steps : List (StepId × Step)
  metadata : List (String × String)
deriving DecidableEq, Repr

/-- The aggregate's domain events, as consumed by `WorkflowGraph::add_step`
(`src/lib.rs` only matches on the `StepAdded` variant and its `step_id`). -/
inductive DomainEvent where
  | StepAdded (step_id : StepId)
deriving DecidableEq, Repr

/-- Modelled from the spec: the visualization projection derived from a
workflow (external crate); only re-derivation from the workflow matters here. -/
structure WorkflowContextGraph where
  step_ids : List StepId
deriving DecidableEq, Repr

/-- Modelled from the spec: `WorkflowContextGraph::from_workflow` re-derives
the projection from current workflow state. -/
def WorkflowContextGraph.from_workflow (w : Workflow) : WorkflowContextGraph :=
  ⟨w.steps.map Prod.fst⟩

/-- `WorkflowGraphMetadata` of `src/lib.rs`. -/
structure WorkflowGraphMetadata where
  name : String
  description : String
  tags : List String
  properties : List (String × String)
deriving DecidableEq, Repr

/-- `WorkflowGraph` of `src/lib.rs`. -/
structure WorkflowGraph where
  workflow : Workflow
  context_graph : WorkflowContextGraph
  metadata : WorkflowGraphMetadata
deriving DecidableEq, Repr

/-- `WorkflowGraphError` of `src/lib.rs`; the variants that carry formatted
message strings about steps are embedded carrying the step ids instead. -/
inductive WorkflowGraphError where
  | DomainError (msg : String)
  | SerializationError (msg : String)
  | InvalidOperation (msg : String)
  | CircularDependency (step : StepId)
  | InvalidDependency (step dep : StepId)
  | StepNotFound (msg : String)
deriving DecidableEq, Repr

/-- `WorkflowGraph::add_tag`: push the tag unless it is already present. -/
def WorkflowGraph.add_tag (g : WorkflowGraph) (tag : String) : WorkflowGraph :=
  if g.metadata.tags.contains tag then g
  else { g with metadata := { g.metadata with tags := g.metadata.tags ++ [tag] } }

/-- A fresh step id, not bound in the step map. -/
def freshStepId (steps : List (StepId × Step)) : StepId :=
  (steps.map Prod.fst).foldr max 0 + 1

/-- Modelled from the spec: `Workflow::add_step` of the external
`cim-domain-workflow` crate (spec §4.1): it fails when a listed dependency id
is not already present in the graph, leaving the aggregate unchanged (no
partial insert); otherwise it inserts a new Pending step and returns a
`StepAdded` event carrying the fresh step id. -/
def Workflow.add_step (w : Workflow) (name description : String)
    (step_type : StepType) (_config : List (String × String))
    (dependencies : List StepId) (estimated_duration_minutes : Option Nat)
    (assigned_to : Option String) (_added_by : Option String) :
    Except String (List DomainEvent × Workflow) :=
  match dependencies.find? (fun d => (lookupA w.steps d).isNone) with
  | some d => .error ("Dependency step not found: " ++ toString d)
  | none =>
    let sid := freshStepId w.steps
    let step : Step :=
      ⟨sid, name, description, step_type, .Pending, dependencies,
        estimated_duration_minutes, assigned_to⟩
    .ok ([.StepAdded sid], { w with steps := w.steps ++ [(sid, step)] })

/-- `WorkflowGraph::add_step` of `src/lib.rs`: delegate to the aggregate,
mapping any domain failure to `DomainError`; on success extract the step id
from the first event and refresh the context graph. State passing replaces
the `&mut self` receiver. -/
def WorkflowGraph.add_step (g : WorkflowGraph) (name description : String)
    (step_type : StepType) (config : List (String × String))
    (dependencies : List StepId) (estimated_duration_minutes : Option Nat)
    (assigned_to : Option String) :
    Except WorkflowGraphError StepId × WorkflowGraph :=
  match g.workflow.add_step name description step_type config dependencies
      estimated_duration_minutes assigned_to (some "system") with
  | .error e => (.error (.DomainError e), g)
  | .ok (events, w) =>
    match events.head? with
    | some (.StepAdded step_id) =>
      (.ok step_id,
        { g with workflow := w, context_graph := .from_workflow w })
    | none =>
      (.error (.InvalidOperation "Failed to create step"), { g with workflow := w })

/-- The loop body of `WorkflowGraph::has_circular_dependency`
(`src/lib.rs:295-307`): walk the dependency list; a dependency equal to the
step under test is a cycle; otherwise recurse (through `recurse`) into an
existing dependency's own dependency list. `none` propagates fuel
exhaustion of the recursive call. -/
def hcdStep (all : List (StepId × Step)) (sid : StepId)
    (recurse : List StepId → Option Bool) : List StepId → Option Bool
  | [] => some false
  | dep :: rest =>
    if dep = sid then some true
    else
      match lookupA all dep with
      | some st =>
        match recurse st.dependencies with
        | none => none
        | some true => some true
        | some false => hcdStep all sid recurse rest
      | none => hcdStep all sid recurse rest

/-- `WorkflowGraph::has_circular_dependency`, with explicit fuel bounding the
recursion depth: the Rust function recurses with no visited set and no
decreasing measure, so it is not total; `none` means the call makes more
than `fuel` nested recursive calls. -/
def has_circular_dependency (all : List (StepId × Step)) (sid : StepId) :
    Nat → List StepId → Option Bool
  | 0, _ => none
  | fuel + 1, deps => hcdStep all sid (has_circular_dependency all sid fuel) deps

/-- The first loop of `WorkflowGraph::validate` (`src/lib.rs:269-276`):
run the cycle check for each step in iteration order. `some (some sid)`
is a detected circular dependency at `sid`, `some none` is all-clear, and
`none` propagates fuel exhaustion. -/
def checkCyclesFuel (all : List (StepId × Step)) (fuel : Nat) :
    List (StepId × Step) → Option (Option StepId)
  | [] => some none
  | (sid, st) :: rest =>
    match has_circular_dependency all sid fuel st.dependencies with
    | none => none
    | some true => some (some sid)
    | some false => checkCyclesFuel all fuel rest

/-- The second loop of `WorkflowGraph::validate` (`src/lib.rs:279-289`):
the first step whose dependency list names an id absent from the step map,
returned as (the step's `id` field, the missing dependency id). -/
def findMissingDep (all : List (StepId × Step)) :
    List (StepId × Step) → Option (StepId × StepId)
  | [] => none
  | (_, st) :: rest =>
    match st.dependencies.find? (fun d => (lookupA all d).isNone) with
    | some d => some (st.id, d)
    | none => findMissingDep all rest

/-- `WorkflowGraph::validate` (`src/lib.rs:267-292`) with explicit fuel for
the recursive cycle check: first the per-step circular-dependency loop, then
the referential-integrity loop. -/
def validateFuel (g : WorkflowGraph) (fuel : Nat) :
    Option (Except WorkflowGraphError Unit) :=
  match checkCyclesFuel g.workflow.steps fuel g.workflow.steps with
  | none => none
  | some (some sid) => some (.error (.CircularDependency sid))
  | some none =>
    match findMissingDep g.workflow.steps g.workflow.steps with
    | some (sid, dep) => some (.error (.InvalidDependency sid dep))
    | none => some (.ok ())

/-- The dependency-edge relation of the step map: `a` depends directly on
`b`. This is the spec's reading of "dependency edges". -/
def edge (all : List (StepId × Step)) (a b : StepId) : Prop :=
  ∃ st, lookupA all a = some st ∧ b ∈ st.dependencies

/-- Spec side (§8): every dependency id referenced by every step resolves to
an existing step. -/
def depsResolve (g : WorkflowGraph) : Bool :=
  g.workflow.steps.all fun p =>
    p.2.dependencies.all fun d => (lookupA g.workflow.steps d).isSome

/-- Spec side (§8): no step is reachable from itself by following dependency
edges. -/
def Acyclic (g : WorkflowGraph) : Prop :=
  ∀ s, ¬ Relation.TransGen (edge g.workflow.steps) s s

/-- Some step lies on a dependency cycle. -/
def cycleExists (g : WorkflowGraph) : Prop :=
  ∃ s, Relation.TransGen (edge g.workflow.steps) s s

/-- `validate` never terminates on `g`, whatever the recursion depth. -/
def validateDiverges (g : WorkflowGraph) : Prop :=
  ∀ fuel, validateFuel g fuel = none

/-- `has_circular_dependency` never terminates on this call, whatever the
recursion depth. -/
def hcdDiverges (all : List (StepId × Step)) (sid : StepId)
    (deps : List StepId) : Prop :=
  ∀ fuel, has_circular_dependency all sid fuel deps = none

/-! ### The mock chained event store (`tests/infrastructure/test_event_stream.rs`) -/

/-- The mock content address of the test event store. -/
structure Cid where
  val : String
deriving DecidableEq, Repr

/-- `Cid::new`: fold the byte values with wrapping 64-bit addition and render
the sum in lowercase hex behind a `Qm` prefix. -/
def Cid.new (data : List Nat) : Cid :=
  ⟨"Qm" ++ String.mk (Nat.toDigits 16 (data.foldl (fun acc b => (acc + b) % 2 ^ 64) 0))⟩

/-- `WorkflowDomainEvent` of the event-stream test module. `SystemTime`
timestamps are embedded as naturals; the `HashMap` context as an association
list. -/
inductive WorkflowDomainEvent where
  | WorkflowCreated (workflow_id name description : String) (timestamp : Nat)
  | StepAdded (workflow_id step_id name step_type : String) (timestamp : Nat)
  | WorkflowStarted (workflow_id : String) (context : List (String × String))
      (timestamp : Nat)
  | StepCompleted (workflow_id step_id result : String) (timestamp : Nat)
  | WorkflowCompleted (workflow_id status : String) (timestamp : Nat)
deriving DecidableEq, Repr

/-- The byte values of a string (the source hashes UTF-8 bytes of `Debug`
strings; code points stand in for bytes — only determinism of the hash input
is ever relied upon). -/
def strBytes (s : String) : List Nat :=
  s.toList.map Char.toNat

/-- A rendering of an event standing in for Rust's derived `Debug` format
(the exact `Debug` syntax is not observable: the store only ever hashes it). -/
def debugEvent : WorkflowDomainEvent → String
  | .WorkflowCreated id n d t =>
    "WorkflowCreated(" ++ id ++ "," ++ n ++ "," ++ d ++ "," ++ toString t ++ ")"
  | .StepAdded id sid n st t =>
    "StepAdded(" ++ id ++ "," ++ sid ++ "," ++ n ++ "," ++ st ++ "," ++ toString t ++ ")"
  | .WorkflowStarted id ctx t =>
    "WorkflowStarted(" ++ id ++ ","
      ++ String.intercalate ";" (ctx.map fun p => p.1 ++ ":" ++ p.2)
      ++ "," ++ toString t ++ ")"
  | .StepCompleted id sid r t =>
    "StepCompleted(" ++ id ++ "," ++ sid ++ "," ++ r ++ "," ++ toString t ++ ")"
  | .WorkflowCompleted id s t =>
    "WorkflowCompleted(" ++ id ++ "," ++ s ++ "," ++ toString t ++ ")"

/-- `Debug` rendering of an optional previous address. -/
def debugOptCid : Option Cid → String
  | none => "None"
  | some c => "Some(Cid(" ++ c.val ++ "))"

/-- The hash input of `append_event`: the bytes of
`format!("{:?}{:?}", event, previous_cid)`. -/
def eventBytes (event : WorkflowDomainEvent) (previous_cid : Option Cid) : List Nat :=
  strBytes (debugEvent event ++ debugOptCid previous_cid)

/-- `ChainedWorkflowEvent` of the event-stream test module. -/
structure ChainedWorkflowEvent where
  event_id : String
  event : WorkflowDomainEvent
  cid : Cid
  previous_cid : Option Cid
  sequence : Nat
deriving DecidableEq, Repr

/-- `MockWorkflowEventStore` of the event-stream test module (the snapshot
`HashMap` as an association list). -/
structure MockWorkflowEventStore where
  events : List ChainedWorkflowEvent
  snapshots : List (Cid × List ChainedWorkflowEvent)
deriving DecidableEq, Repr

/-- `MockWorkflowEventStore::new`. -/
def MockWorkflowEventStore.new : MockWorkflowEventStore := ⟨[], []⟩

/-- `MockWorkflowEventStore::append_event`: the new entry's `previous_cid` is
the address of the last stored entry, its address hashes the event together
with that previous address, and its sequence number is the current length.
The source wraps the returned triple in `Ok` but has no failure path. -/
def append_event (s : MockWorkflowEventStore) (event : WorkflowDomainEvent) :
    (String × Cid × Option Cid) × MockWorkflowEventStore :=
  let event_id := "evt_" ++ toString s.events.length
  let previous_cid := s.events.getLast?.map (·.cid)
  let cid := Cid.new (eventBytes event previous_cid)
  let sequence := s.events.length
  ((event_id, cid, previous_cid),
    { s with events := s.events ++ [⟨event_id, event, cid, previous_cid, sequence⟩] })

/-- Append a list of events in order. -/
def appendList (s : MockWorkflowEventStore) : List WorkflowDomainEvent →
    MockWorkflowEventStore
  | [] => s
  | e :: rest => appendList (append_event s e).2 rest

/-- The failure of `validate_chain`, embedded structurally: the source builds
the strings "No events to validate" and
"Chain broken at sequence i: expected cid, got prev" carrying exactly these
data. -/
inductive ChainError where
  | empty
  | broken (sequence : Nat) (expected : Cid) (got : Option Cid)
deriving DecidableEq, Repr

/-- The loop of `validate_chain`: compare each entry's stored `previous_cid`
with the preceding entry's address, reporting the first mismatch with its
index. -/
def chainCheckFrom : ChainedWorkflowEvent → List ChainedWorkflowEvent → Nat →
    Option (Nat × Cid × Option Cid)
  | _, [], _ => none
  | prev, cur :: rest, i =>
    if cur.previous_cid = some prev.cid then chainCheckFrom cur rest (i + 1)
    else some (i, prev.cid, cur.previous_cid)

/-- `MockWorkflowEventStore::validate_chain`: fails on an empty store; else
checks every adjacent pair and returns (first address, last address, length). -/
def validate_chain (s : MockWorkflowEventStore) :
    Except ChainError (Cid × Cid × Nat) :=
  match s.events with
  | [] => .error .empty
  | first :: rest =>
    match chainCheckFrom first rest 1 with
    | some (i, expected, got) => .error (.broken i expected got)
    | none => .ok (first.cid, (rest.getLastD first).cid, (first :: rest).length)

/-- The embedded workflow identifier of a stored event (each variant's
`workflow_id` field). -/
def eventWorkflowId : WorkflowDomainEvent → String
  | .WorkflowCreated id _ _ _ => id
  | .StepAdded id _ _ _ _ => id
  | .WorkflowStarted id _ _ => id
  | .StepCompleted id _ _ _ => id
  | .WorkflowCompleted id _ _ => id

/-- `MockWorkflowEventStore::replay_events`: keep the stored events whose
embedded workflow id matches, preserving order; the receiver is `&self`, so
the store itself is untouched. -/
def replay_events (s : MockWorkflowEventStore) (workflow_id : String) :
    List ChainedWorkflowEvent :=
  s.events.filter fun e =>
    match e.event with
    | .WorkflowCreated id _ _ _ => id == workflow_id
    | .StepAdded id _ _ _ _ => id == workflow_id
    | .WorkflowStarted id _ _ => id == workflow_id
    | .StepCompleted id _ _ _ => id == workflow_id
    | .WorkflowCompleted id _ _ => id == workflow_id

/-- Spec side: replay as a pure filter on the embedded workflow identifier. -/
def specReplay (s : MockWorkflowEventStore) (workflow_id : String) :
    List ChainedWorkflowEvent :=
  s.events.filter fun e => eventWorkflowId e.event == workflow_id

/-- A rendering of a chained entry standing in for its `Debug` format (only
hashed, never inspected). -/
def debugChained (e : ChainedWorkflowEvent) : String :=
  "ChainedWorkflowEvent(" ++ e.event_id ++ "," ++ debugEvent e.event ++ ","
    ++ e.cid.val ++ "," ++ debugOptCid e.previous_cid ++ ","
    ++ toString e.sequence ++ ")"

/-- The hash input of `create_snapshot`: the bytes of
`format!("{:?}", self.events)`. -/
def snapshotBytes (l : List ChainedWorkflowEvent) : List Nat :=
  strBytes (String.intercalate ";" (l.map debugChained))

/-- `MockWorkflowEventStore::create_snapshot`: refuse an empty store;
otherwise store a copy of the whole event sequence keyed by a content address
of its serialization. -/
def create_snapshot (s : MockWorkflowEventStore) :
    Except String Cid × MockWorkflowEventStore :=
  if s.events = [] then (.error "No events to snapshot", s)
  else
    let snapshot_cid := Cid.new (snapshotBytes s.events)
    (.ok snapshot_cid,
      { s with snapshots := insertA s.snapshots snapshot_cid s.events })

/-- `MockWorkflowEventStore::restore_from_snapshot`: replace the live
sequence wholesale with the stored one, returning its length. -/
def restore_from_snapshot (s : MockWorkflowEventStore) (snapshot_cid : Cid) :
    Except String Nat × MockWorkflowEventStore :=
  match lookupA s.snapshots snapshot_cid with
  | some events => (.ok events.length, { s with events := events })
  | none => (.error "Snapshot not found", s)

/-! ### The command router (`tests/infrastructure/test_message_routing.rs`) -/

/-- `CommandResponse` of the routing test module. -/
inductive CommandResponse where
  | Success (message : String)
  | Error (message : String)
  | Async (correlation_id : String)
deriving DecidableEq, Repr

/-- `WorkflowCommand` of the routing test module. -/
inductive WorkflowCommand where
  | CreateWorkflow (name description : String)
  | AddStep (workflow_id step_name step_type : String)
  | StartWorkflow (workflow_id : String) (context : List (String × String))
  | CompleteStep (workflow_id step_id result : String)
  | CancelWorkflow (workflow_id reason : String)
  | Unknown (command_type : String)
deriving DecidableEq, Repr

/-- A rendering of a command standing in for its `Debug` format (it only ever
appears inside the fallback handler's error message). -/
def debugCommand : WorkflowCommand → String
  | .CreateWorkflow n d => "CreateWorkflow(" ++ n ++ "," ++ d ++ ")"
  | .AddStep w n t => "AddStep(" ++ w ++ "," ++ n ++ "," ++ t ++ ")"
  | .StartWorkflow w ctx =>
    "StartWorkflow(" ++ w ++ ","
      ++ String.intercalate ";" (ctx.map fun p => p.1 ++ ":" ++ p.2) ++ ")"
  | .CompleteStep w s r => "CompleteStep(" ++ w ++ "," ++ s ++ "," ++ r ++ ")"
  | .CancelWorkflow w r => "CancelWorkflow(" ++ w ++ "," ++ r ++ ")"
  | .Unknown t => "Unknown(" ++ t ++ ")"

/-- The handlers of the routing test module behind the
`WorkflowCommandHandler` trait object: `MockWorkflowHandler` (a declared
command type, a fixed response, a handled counter) and `FallbackHandler`
(an invoked counter). The `Arc<Mutex<usize>>` counters are plain fields
under state passing. -/
inductive Handler where
  | mock (command_type : String) (response : CommandResponse) (handled_count : Nat)
  | fallback (invoked_count : Nat)
deriving DecidableEq, Repr

/-- `WorkflowCommandHandler::command_type`. -/
def Handler.command_type : Handler → String
  | .mock ct _ _ => ct
  | .fallback _ => "fallback"

/-- `WorkflowCommandHandler::handle`: bump the handler's own counter and
produce its response (the fallback builds an error naming the command). -/
def Handler.handle : Handler → WorkflowCommand → CommandResponse × Handler
  | .mock ct resp n, _ => (resp, .mock ct resp (n + 1))
  | .fallback n, c =>
    (.Error ("Unknown command type: " ++ debugCommand c), .fallback (n + 1))

/-- `RoutingStats` of the routing test module; `Duration` values are embedded
as whole nanoseconds. -/
structure RoutingStats where
  total_routed : Nat
  by_command_type : List (String × Nat)
  fallback_count : Nat
  average_routing_time : Nat
deriving DecidableEq, Repr

/-- `WorkflowCommandRouter` of the routing test module. -/
structure WorkflowCommandRouter where
  handlers : List (String × Handler)
  fallback_handler : Option Handler
  stats : RoutingStats
  routing_times : List Nat
deriving DecidableEq, Repr

/-- `WorkflowCommandRouter::new`. -/
def WorkflowCommandRouter.new : WorkflowCommandRouter :=
  ⟨[], none, ⟨0, [], 0, 0⟩, []⟩

/-- `WorkflowCommandRouter::register_handler`: keyed by the handler's
declared command type; refuse a duplicate registration before touching the
map. -/
def register_handler (r : WorkflowCommandRouter) (handler : Handler) :
    Except String String × WorkflowCommandRouter :=
  let command_type := handler.command_type
  let handler_id := "handler_" ++ command_type
  if (lookupA r.handlers command_type).isSome then
    (.error ("Handler already registered for " ++ command_type), r)
  else (.ok handler_id, { r with handlers := insertA r.handlers command_type handler })

/-- `WorkflowCommandRouter::set_fallback_handler`. -/
def set_fallback_handler (r : WorkflowCommandRouter) (handler : Handler) :
    WorkflowCommandRouter :=
  { r with fallback_handler := some handler }

/-- `WorkflowCommandRouter::get_command_type`. -/
def get_command_type : WorkflowCommand → String
  | .CreateWorkflow _ _ => "create_workflow"
  | .AddStep _ _ _ => "add_step"
  | .StartWorkflow _ _ => "start_workflow"
  | .CompleteStep _ _ _ => "complete_step"
  | .CancelWorkflow _ _ => "cancel_workflow"
  | .Unknown command_type => command_type

/-- `self.stats.by_command_type.entry(ct).or_insert(0) += 1`. -/
def bumpCount (m : List (String × Nat)) (k : String) : List (String × Nat) :=
  match lookupA m k with
  | some n => insertA m k (n + 1)
  | none => m ++ [(k, 1)]

/-- Sum of the recorded latencies (`iter().map(as_nanos).sum::<u128>()`). -/
def sumNat (l : List Nat) : Nat :=
  l.foldl (· + ·) 0

/-- `WorkflowCommandRouter::route_command`. The elapsed routing time measured
by `Instant::now()` is an oracle input `t` (in nanoseconds). Dispatch: a
registered handler for the command's type, else the fallback, else a
"No handler found" error with handler id "none"; then the uniform stats
update — one latency sample, `total_routed`, the per-type counter, and the
running average `(sum as u64) / len` in whole nanoseconds. -/
def route_command (r : WorkflowCommandRouter) (command : WorkflowCommand)
    (t : Nat) : (CommandResponse × String) × WorkflowCommandRouter :=
  let command_type := get_command_type command
  let step1 : (CommandResponse × String) × WorkflowCommandRouter :=
    match lookupA r.handlers command_type with
    | some handler =>
      (((handler.handle command).1, "handler_" ++ command_type),
        { r with handlers := insertA r.handlers command_type (handler.handle command).2 })
    | none =>
      match r.fallback_handler with
      | some fallback =>
        (((fallback.handle command).1, "fallback"),
          { r with fallback_handler := some (fallback.handle command).2,
                   stats := { r.stats with fallback_count := r.stats.fallback_count + 1 } })
      | none => ((.Error "No handler found", "none"), r)
  let r1 := step1.2
  let times := r1.routing_times ++ [t]
  (step1.1,
    { r1 with
        routing_times := times,
        stats := { r1.stats with
          total_routed := r1.stats.total_routed + 1,
          by_command_type := bumpCount r1.stats.by_command_type command_type,
          average_routing_time := sumNat times % 2 ^ 64 / times.length } })

/-! ### Concrete instances used by witnesses and counterexamples -/

/-- A workflow graph with the given step map and inert metadata. -/
def mkGraph (steps : List (StepId × Step)) : WorkflowGraph :=
  ⟨⟨0, "w", "", .Draft, steps, []⟩, ⟨steps.map Prod.fst⟩, ⟨"w", "", [], []⟩⟩

/-- A step with the given id and dependency list. -/
def mkStep (sid : StepId) (deps : List StepId) : Step :=
  ⟨sid, "s" ++ toString sid, "", .Manual, .Pending, deps, none, none⟩

/-- Step 0 depends on step 1, while steps 1 and 2 form a two-step cycle that
does not pass through step 0: the first iteration of `validate`'s cycle loop
(step 0) recurses forever. -/
def gBad : WorkflowGraph :=
  mkGraph [(0, mkStep 0 [1]), (1, mkStep 1 [2]), (2, mkStep 2 [1])]

/-- An acyclic two-step graph: step 2 depends on step 1. -/
def gTwo : WorkflowGraph :=
  mkGraph [(1, mkStep 1 []), (2, mkStep 2 [1])]

/-- The empty workflow graph. -/
def gEmpty : WorkflowGraph := mkGraph []

/-- A graph already carrying the metadata tag "alpha". -/
def gTagged : WorkflowGraph :=
  { gEmpty with metadata := { gEmpty.metadata with tags := ["alpha"] } }

/-- A router with one registered handler for `create_workflow`. -/
def rReg : WorkflowCommandRouter :=
  (register_handler .new (.mock "create_workflow" (.Success "Workflow created") 0)).2

/-- A router with only a fallback handler. -/
def rFb : WorkflowCommandRouter := set_fallback_handler .new (.fallback 0)

/-- Two concrete domain events of the same workflow. -/
def ev1 : WorkflowDomainEvent := .WorkflowCreated "wf-1" "Workflow 1" "Test" 0

/-- A second concrete event. -/
def ev2 : WorkflowDomainEvent := .StepAdded "wf-1" "step-1" "Step 1" "Manual" 1

/-- The store holding `ev1` then `ev2`. -/
def s2 : MockWorkflowEventStore := appendList .new [ev1, ev2]

/-- A chain of nested recursive calls of `has_circular_dependency`: each
element is drawn from the previous dependency list and resolves to an
existing step whose own dependency list feeds the next element. A call that
runs out of fuel `f` exhibits such a chain of length `f`. -/
def ChainFrom (all : List (StepId × Step)) : List StepId → List StepId → Prop
  | _, [] => True
  | deps, x :: rest =>
    x ∈ deps ∧ ∃ st, lookupA all x = some st ∧ ChainFrom all st.dependencies rest

/-- The second entry of `s2`, spelled out (used to instantiate the chain
mutation witness). -/
def e1c : ChainedWorkflowEvent :=
  ⟨"evt_1", ev2, Cid.new (eventBytes ev2 (some (Cid.new (eventBytes ev1 none)))),
    some (Cid.new (eventBytes ev1 none)), 1⟩

/-- Does an `add_step` result carry the `InvalidDependency` error kind? -/
def resultIsInvalidDependency : Except WorkflowGraphError StepId → Bool
  | .error (.InvalidDependency _ _) => true
  | _ => false

deriving instance DecidableEq for Except

/-! ### Association-list lemmas -/

theorem lookupA_insertA_self {κ α : Type} [DecidableEq κ]
    (m : List (κ × α)) (k : κ) (v : α) : lookupA (insertA m k v) k = some v := by
  induction m with
  | nil => simp [insertA, lookupA]
  | cons p rest ih =>
    by_cases h : p.1 = k
    · simp [insertA, h, lookupA]
    · simp [insertA, h, lookupA, ih]

theorem lookupA_append_of_none {κ α : Type} [DecidableEq κ]
    {m : List (κ × α)} {k : κ} (l : List (κ × α)) (h : lookupA m k = none) :
    lookupA (m ++ l) k = lookupA l k := by
  induction m with
  | nil => simp
  | cons p rest ih =>
    by_cases hp : p.1 = k
    · simp [lookupA, hp] at h
    · simp [lookupA, hp] at h ⊢
      exact ih h

theorem lookupA_mem {κ α : Type} [DecidableEq κ]
    {m : List (κ × α)} {k : κ} {v : α} (h : lookupA m k = some v) : (k, v) ∈ m := by
  induction m with
  | nil => simp [lookupA] at h
  | cons p rest ih =>
    by_cases hp : p.1 = k
    · simp [lookupA, hp] at h
      have hpv : p = (k, v) := by cases p; simp_all
      rw [hpv]
      exact List.mem_cons_self _ _
    · simp [lookupA, hp] at h
      exact List.mem_cons_of_mem _ (ih h)

theorem mem_lookupA {κ α : Type} [DecidableEq κ]
    {m : List (κ × α)} {k : κ} {v : α} (hmem : (k, v) ∈ m)
    (hnd : (m.map Prod.fst).Nodup) : lookupA m k = some v := by
  induction m with
  | nil => simp at hmem
  | cons p rest ih =>
    simp only [List.map_cons, List.nodup_cons] at hnd
    rcases List.mem_cons.mp hmem with h | h
    · cases h
      simp [lookupA]
    · have hk : p.1 ≠ k := by
        intro he
        exact hnd.1 (he ▸ (List.mem_map.mpr ⟨(k, v), h, rfl⟩))
      simp [lookupA, hk]
      exact ih h hnd.2

theorem lookupA_isSome_iff {κ α : Type} [DecidableEq κ]
    (m : List (κ × α)) (k : κ) :
    (lookupA m k).isSome = true ↔ k ∈ m.map Prod.fst := by
  induction m with
  | nil => simp [lookupA]
  | cons p rest ih =>
    by_cases hp : p.1 = k
    · simp [lookupA, hp]
    · simp [lookupA, hp, ih, Ne.symm hp]

/-! ### C10: `add_tag` idempotence -/

/-- C10: `add_tag` is idempotent at the public interface: adding a tag that
is already present leaves the tag list unchanged, adding twice equals adding
once, and a duplicate-free tag list stays duplicate-free. -/
theorem add_tag_idempotent (g : WorkflowGraph) (t : String) :
    (t ∈ g.metadata.tags → g.add_tag t = g)
    ∧ (g.add_tag t).add_tag t = g.add_tag t
    ∧ (g.metadata.tags.Nodup → ((g.add_tag t).metadata.tags).Nodup) := by
  by_cases h : t ∈ g.metadata.tags
  · have h1 : g.add_tag t = g := by simp [WorkflowGraph.add_tag, h]
    exact ⟨fun _ => h1, by rw [h1, h1], fun hn => by rw [h1]; exact hn⟩
  · have h1 : g.add_tag t =
        { g with metadata := { g.metadata with tags := g.metadata.tags ++ [t] } } := by
      simp [WorkflowGraph.add_tag, h]
    refine ⟨fun hmem => absurd hmem h, ?_, fun hn => ?_⟩
    · rw [h1]
      simp [WorkflowGraph.add_tag, h1]
    · rw [h1]
      simp [List.nodup_append, hn, h]

/-- Witness for C10 at the graph already tagged "alpha". -/
theorem add_tag_idempotent_witness :
    (gTagged.add_tag "alpha" = gTagged)
    ∧ ((gTagged.add_tag "alpha").add_tag "alpha" = gTagged.add_tag "alpha")
    ∧ ((gTagged.add_tag "alpha").metadata.tags).Nodup :=
  ⟨(add_tag_idempotent gTagged "alpha").1 (by decide),
   (add_tag_idempotent gTagged "alpha").2.1,
   (add_tag_idempotent gTagged "alpha").2.2 (by decide)⟩

/-! ### C6: replay is an order-preserving pure filter -/

/-- C6: `replay_events` returns exactly the stored events whose embedded
workflow identifier equals the requested one, in original append order (it
is a sublist of the stored sequence, equal to the pure filter); the receiver
is read-only, so it is a pure function of the store and two calls agree
definitionally. -/
theorem replay_events_filter (s : MockWorkflowEventStore) (workflow_id : String) :
    replay_events s workflow_id = specReplay s workflow_id
    ∧ (∀ e, e ∈ replay_events s workflow_id ↔
        e ∈ s.events ∧ eventWorkflowId e.event = workflow_id)
    ∧ List.Sublist (replay_events s workflow_id) s.events := by
  have h1 : replay_events s workflow_id = specReplay s workflow_id := by
    unfold replay_events specReplay
    congr 1
    funext e
    cases e.event <;> rfl
  refine ⟨h1, fun e => ?_, ?_⟩
  · rw [h1]
    unfold specReplay
    simp [List.mem_filter, eventWorkflowId]
  · unfold replay_events
    exact List.filter_sublist _

/-! ### C7: handler registration -/

/-- C7: registering a handler whose declared command type is already taken
fails (the source's "Handler already registered" error) and leaves the
router — in particular its handler map — unchanged; registering a fresh
type succeeds with the id `handler_<type>` derived from the type and inserts
the handler. -/
theorem register_handler_spec (r : WorkflowCommandRouter) (h : Handler) :
    ((lookupA r.handlers h.command_type).isSome = true →
      register_handler r h =
        (.error ("Handler already registered for " ++ h.command_type), r))
    ∧ ((lookupA r.handlers h.command_type).isSome = false →
      register_handler r h =
        (.ok ("handler_" ++ h.command_type),
          { r with handlers := insertA r.handlers h.command_type h })) := by
  constructor <;> intro hc <;> simp [register_handler, hc]

/-- Witness for C7: duplicate registration on `rReg` fails and keeps the
router; fresh registration on the empty router succeeds. -/
theorem register_handler_spec_witness :
    (register_handler rReg (.mock "create_workflow" (.Success "again") 0) =
      (.error ("Handler already registered for " ++ "create_workflow"), rReg))
    ∧ (register_handler .new (.mock "create_workflow" (.Success "Workflow created") 0) =
      (.ok ("handler_" ++ "create_workflow"),
        { WorkflowCommandRouter.new with
            handlers := insertA WorkflowCommandRouter.new.handlers "create_workflow"
              (.mock "create_workflow" (.Success "Workflow created") 0) })) :=
  ⟨(register_handler_spec rReg (.mock "create_workflow" (.Success "again") 0)).1 (by decide),
   (register_handler_spec .new (.mock "create_workflow" (.Success "Workflow created") 0)).2
     (by decide)⟩

/-! ### C4 and C9: routing -/

theorem bumpCount_lookup (m : List (String × Nat)) (k : String) :
    (lookupA (bumpCount m k) k).getD 0 = (lookupA m k).getD 0 + 1 := by
  unfold bumpCount
  cases hl : lookupA m k with
  | some n => rw [lookupA_insertA_self]; simp
  | none => rw [lookupA_append_of_none _ hl]; simp [lookupA]

/-- C4: dispatch determinism of `route_command`. With a handler registered
for the command's type, routing returns that handler's response under the
id `handler_<type>`, the handler map receives the handler's post-invocation
state, and the fallback handler and fallback counter are untouched. With no
registered handler but a fallback present, the fallback is invoked (its
response is returned under id "fallback", its state advances) and the
fallback counter rises by exactly one. With neither, routing returns the
"No handler found" error response under handler id "none". -/
theorem route_command_dispatch (r : WorkflowCommandRouter)
    (c : WorkflowCommand) (t : Nat) :
    (∀ h, lookupA r.handlers (get_command_type c) = some h →
      (route_command r c t).1 = ((h.handle c).1, "handler_" ++ get_command_type c)
      ∧ (route_command r c t).2.fallback_handler = r.fallback_handler
      ∧ (route_command r c t).2.stats.fallback_count = r.stats.fallback_count
      ∧ (route_command r c t).2.handlers
          = insertA r.handlers (get_command_type c) (h.handle c).2)
    ∧ (lookupA r.handlers (get_command_type c) = none →
       ∀ fb, r.fallback_handler = some fb →
      (route_command r c t).1 = ((fb.handle c).1, "fallback")
      ∧ (route_command r c t).2.stats.fallback_count = r.stats.fallback_count + 1
      ∧ (route_command r c t).2.fallback_handler = some (fb.handle c).2
      ∧ (route_command r c t).2.handlers = r.handlers)
    ∧ (lookupA r.handlers (get_command_type c) = none → r.fallback_handler = none →
      (route_command r c t).1 = (.Error "No handler found", "none")
      ∧ (route_command r c t).2.stats.fallback_count = r.stats.fallback_count
      ∧ (route_command r c t).2.fallback_handler = none) := by
  refine ⟨fun h hl => ?_, fun hl fb hfb => ?_, fun hl hfb => ?_⟩
  · simp [route_command, hl]
  · simp [route_command, hl, hfb]
  · simp [route_command, hl, hfb]

/-- Witness for C4: all three dispatch scenarios at concrete routers. -/
theorem route_command_dispatch_witness :
    ((route_command rReg (.CreateWorkflow "T" "D") 7).1 =
        ((Handler.handle (.mock "create_workflow" (.Success "Workflow created") 0)
            (.CreateWorkflow "T" "D")).1, "handler_" ++ "create_workflow")
      ∧ (route_command rReg (.CreateWorkflow "T" "D") 7).2.stats.fallback_count
          = rReg.stats.fallback_count)
    ∧ ((route_command rFb (.Unknown "unknown_command") 7).1 =
        ((Handler.handle (.fallback 0) (.Unknown "unknown_command")).1, "fallback")
      ∧ (route_command rFb (.Unknown "unknown_command") 7).2.stats.fallback_count
          = rFb.stats.fallback_count + 1)
    ∧ (route_command .new (.Unknown "unknown_command") 7).1 =
        (.Error "No handler found", "none") :=
  ⟨⟨((route_command_dispatch rReg (.CreateWorkflow "T" "D") 7).1
        (.mock "create_workflow" (.Success "Workflow created") 0) (by decide)).1,
    ((route_command_dispatch rReg (.CreateWorkflow "T" "D") 7).1
        (.mock "create_workflow" (.Success "Workflow created") 0) (by decide)).2.2.1⟩,
   ⟨((route_command_dispatch rFb (.Unknown "unknown_command") 7).2.1
        (by decide) (.fallback 0) (by decide)).1,
    ((route_command_dispatch rFb (.Unknown "unknown_command") 7).2.1
        (by decide) (.fallback 0) (by decide)).2.1⟩,
   ((route_command_dispatch .new (.Unknown "unknown_command") 7).2.2
        (by decide) (by decide)).1⟩

/-- C9: every `route_command` call appends exactly one latency sample,
raises `total_routed` by exactly one, and sets `average_routing_time` to the
sum of all samples so far divided by their count (the arithmetic mean in
whole nanoseconds — truncating division after the source's cast of the
`u128` sum to `u64`); when a handler is registered for the command's type,
the per-type counter for that type rises by exactly one. -/
theorem route_command_stats (r : WorkflowCommandRouter)
    (c : WorkflowCommand) (t : Nat) :
    (route_command r c t).2.routing_times = r.routing_times ++ [t]
    ∧ (route_command r c t).2.stats.total_routed = r.stats.total_routed + 1
    ∧ (route_command r c t).2.stats.average_routing_time
        = sumNat (r.routing_times ++ [t]) % 2 ^ 64 / (r.routing_times.length + 1)
    ∧ (sumNat (r.routing_times ++ [t]) < 2 ^ 64 →
        (route_command r c t).2.stats.average_routing_time
          = sumNat (r.routing_times ++ [t]) / (r.routing_times.length + 1))
    ∧ (∀ h, lookupA r.handlers (get_command_type c) = some h →
        (lookupA (route_command r c t).2.stats.by_command_type
            (get_command_type c)).getD 0
          = (lookupA r.stats.by_command_type (get_command_type c)).getD 0 + 1) := by
  have core :
      (route_command r c t).2.routing_times = r.routing_times ++ [t]
      ∧ (route_command r c t).2.stats.total_routed = r.stats.total_routed + 1
      ∧ (route_command r c t).2.stats.average_routing_time
          = sumNat (r.routing_times ++ [t]) % 2 ^ 64 / (r.routing_times.length + 1)
      ∧ (route_command r c t).2.stats.by_command_type
          = bumpCount r.stats.by_command_type (get_command_type c) := by
    cases hl : lookupA r.handlers (get_command_type c) with
    | some h => simp [route_command, hl]
    | none =>
      cases hfb : r.fallback_handler with
      | some fb => simp [route_command, hl, hfb]
      | none => simp [route_command, hl, hfb]
  refine ⟨core.1, core.2.1, core.2.2.1, fun hlt => ?_, fun h _ => ?_⟩
  · rw [core.2.2.1, Nat.mod_eq_of_lt hlt]
  · rw [core.2.2.2]
    exact bumpCount_lookup _ _

/-- Witness for C9 at the registered router: one sample, total 1, truncated
mean, and the per-type counter at 1. -/
theorem route_command_stats_witness :
    (route_command rReg (.CreateWorkflow "T" "D") 7).2.routing_times = [7]
    ∧ (route_command rReg (.CreateWorkflow "T" "D") 7).2.stats.total_routed = 1
    ∧ (route_command rReg (.CreateWorkflow "T" "D") 7).2.stats.average_routing_time
        = sumNat [7] / 1
    ∧ (lookupA (route_command rReg (.CreateWorkflow "T" "D") 7).2.stats.by_command_type
        "create_workflow").getD 0 = 1 := by
  have hs := route_command_stats rReg (.CreateWorkflow "T" "D") 7
  refine ⟨hs.1, hs.2.1, ?_, ?_⟩
  · have := hs.2.2.2.1 (by decide)
    simpa using this
  · have := hs.2.2.2.2 (.mock "create_workflow" (.Success "Workflow created") 0) (by decide)
    simpa using this

/-! ### C3: snapshot round trip -/

/-- C3: creating a snapshot of a nonempty store, clearing the live event
sequence, then restoring from the returned snapshot address yields back the
original sequence verbatim (the same entries: addresses, sequence numbers
and payloads), and `restore_from_snapshot` returns the original event
count. -/
theorem snapshot_roundtrip (s : MockWorkflowEventStore) (h : s.events ≠ []) :
    ∃ c, (create_snapshot s).1 = .ok c
      ∧ (restore_from_snapshot { (create_snapshot s).2 with events := [] } c).1
          = .ok s.events.length
      ∧ (restore_from_snapshot { (create_snapshot s).2 with events := [] } c).2.events
          = s.events := by
  refine ⟨Cid.new (snapshotBytes s.events), ?_, ?_, ?_⟩ <;>
    simp [create_snapshot, restore_from_snapshot, h, lookupA_insertA_self]

/-- Witness for C3 at the two-event store. -/
theorem snapshot_roundtrip_witness :
    ∃ c, (create_snapshot s2).1 = .ok c
      ∧ (restore_from_snapshot { (create_snapshot s2).2 with events := [] } c).1
          = .ok 2
      ∧ (restore_from_snapshot { (create_snapshot s2).2 with events := [] } c).2.events
          = s2.events := by
  obtain ⟨c, h1, h2, h3⟩ := snapshot_roundtrip s2 (by decide)
  exact ⟨c, h1, h2, h3⟩

/-! ### C5: `add_step` with a missing dependency -/

/-- C5 (amended): adding a step whose dependency list names an id absent
from the graph fails — but with a `DomainError` wrapping the aggregate's
failure (the `map_err` in `WorkflowGraph::add_step` converts every domain
failure to `DomainError`, so `InvalidDependency` is never produced here) —
and the graph value is returned unchanged: no partial insert. -/
theorem add_step_missing_dep (g : WorkflowGraph) (name description : String)
    (step_type : StepType) (config : List (String × String))
    (dependencies : List StepId) (dur : Option Nat) (assigned : Option String)
    (d : StepId) (hd : d ∈ dependencies)
    (hmiss : lookupA g.workflow.steps d = none) :
    (∃ msg, (g.add_step name description step_type config dependencies dur assigned).1
        = .error (.DomainError msg))
    ∧ (g.add_step name description step_type config dependencies dur assigned).2 = g := by
  cases hf : dependencies.find? (fun x => (lookupA g.workflow.steps x).isNone) with
  | none =>
    exfalso
    have := List.find?_eq_none.mp hf d hd
    simp [hmiss] at this
  | some e =>
    have hdom : g.workflow.add_step name description step_type config dependencies
        dur assigned (some "system")
        = .error ("Dependency step not found: " ++ toString e) := by
      unfold Workflow.add_step
      rw [hf]
    constructor
    · exact ⟨_, by unfold WorkflowGraph.add_step; rw [hdom]⟩
    · unfold WorkflowGraph.add_step
      rw [hdom]

/-- Counterexample for C5 as stated: at a concrete call the failure is a
`DomainError`, not an `InvalidDependency` (while the graph is indeed left
unchanged). -/
theorem add_step_missing_dep_cex :
    resultIsInvalidDependency
        (gEmpty.add_step "S" "" .Manual [] [99] none none).1 = false
    ∧ (gEmpty.add_step "S" "" .Manual [] [99] none none).1
        = .error (.DomainError ("Dependency step not found: " ++ toString (99 : StepId)))
    ∧ (gEmpty.add_step "S" "" .Manual [] [99] none none).2 = gEmpty := by
  decide

/-- Witness for the amended C5 at a concrete call. -/
theorem add_step_missing_dep_witness :
    (∃ msg, (gEmpty.add_step "S" "" .Manual [] [99] none none).1
        = .error (.DomainError msg))
    ∧ (gEmpty.add_step "S" "" .Manual [] [99] none none).2 = gEmpty :=
  add_step_missing_dep gEmpty "S" "" .Manual [] [99] none none 99
    (by decide) (by decide)

/-! ### C2: hash-chain validation -/

theorem chainCheckFrom_eq_none (prev : ChainedWorkflowEvent)
    (l : List ChainedWorkflowEvent) (i : Nat)
    (h : List.Chain' (fun a b => b.previous_cid = some a.cid) (prev :: l)) :
    chainCheckFrom prev l i = none := by
  induction l generalizing prev i with
  | nil => rfl
  | cons c rest ih =>
    rw [List.chain'_cons] at h
    simp [chainCheckFrom, h.1]
    exact ih c (i + 1) h.2

theorem append_event_chain (s : MockWorkflowEventStore) (e : WorkflowDomainEvent)
    (h : List.Chain' (fun a b => b.previous_cid = some a.cid) s.events) :
    List.Chain' (fun a b => b.previous_cid = some a.cid)
      ((append_event s e).2.events) := by
  show List.Chain' _ (s.events ++ [_])
  rw [List.chain'_append]
  refine ⟨h, List.chain'_singleton _, fun x hx y hy => ?_⟩
  simp only [List.head?_cons, Option.mem_def, Option.some.injEq] at hy
  subst hy
  show (s.events.getLast?.map (·.cid)) = some x.cid
  simp only [Option.mem_def] at hx
  rw [hx]
  rfl

theorem appendList_chain (es : List WorkflowDomainEvent)
    (s : MockWorkflowEventStore)
    (h : List.Chain' (fun a b => b.previous_cid = some a.cid) s.events) :
    List.Chain' (fun a b => b.previous_cid = some a.cid)
      ((appendList s es).events) := by
  induction es generalizing s with
  | nil => exact h
  | cons e rest ih => exact ih _ (append_event_chain s e h)

theorem appendList_length (es : List WorkflowDomainEvent)
    (s : MockWorkflowEventStore) :
    (appendList s es).events.length = s.events.length + es.length := by
  induction es generalizing s with
  | nil => simp [appendList]
  | cons e rest ih =>
    show (appendList (append_event s e).2 rest).events.length = _
    rw [ih]
    have h1 : (append_event s e).2.events.length = s.events.length + 1 := by
      simp [append_event]
    rw [h1]
    simp only [List.length_cons]
    omega

theorem getLast?_cons_eq {α : Type} (a : α) (l : List α) :
    (a :: l).getLast? = some (l.getLastD a) := by
  induction l generalizing a with
  | nil => rfl
  | cons b t ih =>
    rw [List.getLastD_cons]
    exact ih b

theorem chainCheckFrom_set_broken (j : Nat) :
    ∀ (l : List ChainedWorkflowEvent) (prev e : ChainedWorkflowEvent)
      (v : Option Cid) (start : Nat),
      List.Chain' (fun a b => b.previous_cid = some a.cid) (prev :: l) →
      l.get? j = some e → v ≠ e.previous_cid →
      ∃ exp, chainCheckFrom prev (l.set j { e with previous_cid := v }) start
        = some (start + j, exp, v) := by
  induction j with
  | zero =>
    intro l prev e v start hch hget hv
    cases l with
    | nil => simp at hget
    | cons c rest =>
      simp only [List.get?_cons_zero, Option.some.injEq] at hget
      subst hget
      rw [List.chain'_cons] at hch
      have hne : v ≠ some prev.cid := hch.1 ▸ hv
      refine ⟨prev.cid, ?_⟩
      simp [List.set, chainCheckFrom, hne]
  | succ j ih =>
    intro l prev e v start hch hget hv
    cases l with
    | nil => simp at hget
    | cons c rest =>
      simp only [List.get?_cons_succ] at hget
      rw [List.chain'_cons] at hch
      obtain ⟨exp, hexp⟩ := ih rest c e v (start + 1) hch.2 hget hv
      refine ⟨exp, ?_⟩
      show chainCheckFrom prev (c :: rest.set j _) start = _
      simp [chainCheckFrom, hch.1, hexp]
      omega

/-- C2: for events appended through `append_event` the chain validates,
returning the first entry's address, the last entry's address and the count;
mutating any single stored `previous_cid` at a position `i ≥ 1` to a
different value makes `validate_chain` fail reporting exactly the sequence
number `i` (and the mutated value); and a store with zero entries fails
with the empty-store error. -/
theorem validate_chain_spec :
    (∀ es : List WorkflowDomainEvent, es ≠ [] →
      ∃ a b, (appendList MockWorkflowEventStore.new es).events.head? = some a
        ∧ (appendList MockWorkflowEventStore.new es).events.getLast? = some b
        ∧ validate_chain (appendList MockWorkflowEventStore.new es)
            = .ok (a.cid, b.cid, es.length))
    ∧ (∀ es i (v : Option Cid) e,
        (appendList MockWorkflowEventStore.new es).events.get? i = some e →
        1 ≤ i → v ≠ e.previous_cid →
        ∃ exp, validate_chain
            { appendList MockWorkflowEventStore.new es with
                events := (appendList MockWorkflowEventStore.new es).events.set i
                  { e with previous_cid := v } }
          = .error (.broken i exp v))
    ∧ (∀ s : MockWorkflowEventStore, s.events = [] →
        validate_chain s = .error .empty) := by
  have hch0 : ∀ es, List.Chain' (fun a b => b.previous_cid = some a.cid)
      (appendList MockWorkflowEventStore.new es).events :=
    fun es => appendList_chain es _ (by simp [MockWorkflowEventStore.new])
  have hlen : ∀ es, (appendList MockWorkflowEventStore.new es).events.length
      = es.length := by
    intro es
    have := appendList_length es MockWorkflowEventStore.new
    simpa [MockWorkflowEventStore.new] using this
  refine ⟨fun es hne => ?_, fun es i v e hget h1 hv => ?_, fun s hs => ?_⟩
  · have hne2 : (appendList MockWorkflowEventStore.new es).events ≠ [] := by
      intro h0
      apply hne
      have := hlen es
      rw [h0] at this
      exact List.eq_nil_of_length_eq_zero this.symm
    obtain ⟨first, rest, hfr⟩ := List.exists_cons_of_ne_nil hne2
    have hch : List.Chain' (fun a b => b.previous_cid = some a.cid)
        (first :: rest) := by
      rw [← hfr]; exact hch0 es
    refine ⟨first, rest.getLastD first, ?_, ?_, ?_⟩
    · rw [hfr]; rfl
    · rw [hfr]; exact getLast?_cons_eq first rest
    · have hl2 : (first :: rest).length = es.length := by
        rw [← hfr]; exact hlen es
      simp only [validate_chain, hfr, chainCheckFrom_eq_none first rest 1 hch, hl2]
  · obtain ⟨j, rfl⟩ : ∃ j, i = j + 1 := ⟨i - 1, by omega⟩
    cases hfr : (appendList MockWorkflowEventStore.new es).events with
    | nil => rw [hfr] at hget; simp at hget
    | cons first rest =>
      rw [hfr] at hget
      simp only [List.get?_cons_succ] at hget
      have hch : List.Chain' (fun a b => b.previous_cid = some a.cid)
          (first :: rest) := by
        rw [← hfr]; exact hch0 es
      obtain ⟨exp, hexp⟩ := chainCheckFrom_set_broken j rest first e v 1 hch hget hv
      have hadd : 1 + j = j + 1 := by omega
      rw [hadd] at hexp
      refine ⟨exp, ?_⟩
      simp only [validate_chain, List.set_cons_succ, hexp]
  · unfold validate_chain
    rw [hs]

/-- Witness for C2 at the two-event store `s2`: the chain validates with
count 2; zeroing out the second entry's `previous_cid` breaks it exactly at
sequence 1; the empty store fails. -/
theorem validate_chain_spec_witness :
    (∃ a b, s2.events.head? = some a ∧ s2.events.getLast? = some b
      ∧ validate_chain s2 = .ok (a.cid, b.cid, 2))
    ∧ (∃ exp, validate_chain
        { s2 with events := s2.events.set 1 { e1c with previous_cid := none } }
        = .error (.broken 1 exp none))
    ∧ validate_chain MockWorkflowEventStore.new = .error .empty :=
  ⟨validate_chain_spec.1 [ev1, ev2] (by decide),
   validate_chain_spec.2.1 [ev1, ev2] 1 none e1c (by decide) (by decide) (by decide),
   validate_chain_spec.2.2 MockWorkflowEventStore.new (by decide)⟩

/-! ### C1 and C8: the cycle check -/

theorem hcdStep_true_sound (all : List (StepId × Step)) (sid : StepId)
    (recurse : List StepId → Option Bool)
    (hrec : ∀ deps, recurse deps = some true →
      ∃ d ∈ deps, Relation.ReflTransGen (edge all) d sid) :
    ∀ deps, hcdStep all sid recurse deps = some true →
      ∃ d ∈ deps, Relation.ReflTransGen (edge all) d sid := by
  intro deps
  induction deps with
  | nil => intro h; simp [hcdStep] at h
  | cons d rest ih =>
    intro h
    by_cases hd : d = sid
    · exact ⟨d, List.mem_cons_self _ _, hd ▸ Relation.ReflTransGen.refl⟩
    · simp only [hcdStep, if_neg hd] at h
      cases hl : lookupA all d with
      | none =>
        simp only [hl] at h
        obtain ⟨x, hx, hp⟩ := ih h
        exact ⟨x, List.mem_cons_of_mem _ hx, hp⟩
      | some st =>
        simp only [hl] at h
        cases hr : recurse st.dependencies with
        | none => simp only [hr] at h; exact Option.noConfusion h
        | some b =>
          cases b with
          | true =>
            obtain ⟨d2, hd2, hp2⟩ := hrec st.dependencies hr
            exact ⟨d, List.mem_cons_self _ _,
              Relation.ReflTransGen.head ⟨st, hl, hd2⟩ hp2⟩
          | false =>
            simp only [hr] at h
            obtain ⟨x, hx, hp⟩ := ih h
            exact ⟨x, List.mem_cons_of_mem _ hx, hp⟩

theorem hcdStep_false_exhaustive (all : List (StepId × Step)) (sid : StepId)
    (recurse : List StepId → Option Bool)
    (hrec : ∀ deps, recurse deps = some false →
      ∀ d ∈ deps, ¬ Relation.ReflTransGen (edge all) d sid) :
    ∀ deps, hcdStep all sid recurse deps = some false →
      ∀ d ∈ deps, ¬ Relation.ReflTransGen (edge all) d sid := by
  intro deps
  induction deps with
  | nil => intro _ x hx; simp at hx
  | cons d rest ih =>
    intro h x hx
    by_cases hd : d = sid
    · simp only [hcdStep, if_pos hd] at h
      simp at h
    · simp only [hcdStep, if_neg hd] at h
      cases hl : lookupA all d with
      | none =>
        simp only [hl] at h
        rcases List.mem_cons.mp hx with hxd | hxr
        · subst hxd
          intro hrtg
          rcases Relation.ReflTransGen.cases_head hrtg with he | ⟨c, hc, _⟩
          · exact hd he
          · obtain ⟨st, hst, _⟩ := hc
            rw [hl] at hst
            exact Option.noConfusion hst
        · exact ih h x hxr
      | some st =>
        simp only [hl] at h
        cases hr : recurse st.dependencies with
        | none => simp only [hr] at h; exact Option.noConfusion h
        | some b =>
          cases b with
          | true => simp only [hr] at h; simp at h
          | false =>
            simp only [hr] at h
            rcases List.mem_cons.mp hx with hxd | hxr
            · subst hxd
              intro hrtg
              rcases Relation.ReflTransGen.cases_head hrtg with he | ⟨c, hc, hcs⟩
              · exact hd he
              · obtain ⟨st2, hst2, hcdep⟩ := hc
                rw [hl] at hst2
                cases hst2
                exact hrec st.dependencies hr c hcdep hcs
            · exact ih h x hxr

theorem hcd_true_sound (all : List (StepId × Step)) :
    ∀ (f : Nat) (sid : StepId) (deps : List StepId),
      has_circular_dependency all sid f deps = some true →
      ∃ d ∈ deps, Relation.ReflTransGen (edge all) d sid := by
  intro f
  induction f with
  | zero => intro sid deps h; simp [has_circular_dependency] at h
  | succ f ih =>
    intro sid deps h
    exact hcdStep_true_sound all sid _ (ih sid) deps h

theorem hcd_false_exhaustive (all : List (StepId × Step)) :
    ∀ (f : Nat) (sid : StepId) (deps : List StepId),
      has_circular_dependency all sid f deps = some false →
      ∀ d ∈ deps, ¬ Relation.ReflTransGen (edge all) d sid := by
  intro f
  induction f with
  | zero => intro sid deps h; simp [has_circular_dependency] at h
  | succ f ih =>
    intro sid deps h
    exact hcdStep_false_exhaustive all sid _ (ih sid) deps h

theorem ChainFrom_mono (all : List (StepId × Step)) :
    ∀ (l : List StepId) (deps deps' : List StepId), deps ⊆ deps' →
      ChainFrom all deps l → ChainFrom all deps' l := by
  intro l
  induction l with
  | nil => intro _ _ _ _; trivial
  | cons x rest ih =>
    intro deps deps' hsub h
    obtain ⟨hx, st, hst, hc⟩ := h
    exact ⟨hsub hx, st, hst, hc⟩

theorem hcdStep_none_chain (all : List (StepId × Step)) (sid : StepId)
    (f : Nat) (recurse : List StepId → Option Bool)
    (hrec : ∀ deps, recurse deps = none →
      ∃ l, l.length = f ∧ ChainFrom all deps l) :
    ∀ deps, hcdStep all sid recurse deps = none →
      ∃ l, l.length = f + 1 ∧ ChainFrom all deps l := by
  intro deps
  induction deps with
  | nil => intro h; simp [hcdStep] at h
  | cons d rest ih =>
    intro h
    by_cases hd : d = sid
    · simp only [hcdStep, if_pos hd] at h
      exact Option.noConfusion h
    · simp only [hcdStep, if_neg hd] at h
      cases hl : lookupA all d with
      | none =>
        simp only [hl] at h
        obtain ⟨l, hlen, hcf⟩ := ih h
        exact ⟨l, hlen, ChainFrom_mono all l rest (d :: rest)
          (List.subset_cons_self _ _) hcf⟩
      | some st =>
        simp only [hl] at h
        cases hr : recurse st.dependencies with
        | none =>
          obtain ⟨l, hlen, hcf⟩ := hrec st.dependencies hr
          exact ⟨d :: l, by simp [hlen],
            ⟨List.mem_cons_self _ _, st, hl, hcf⟩⟩
        | some b =>
          cases b with
          | true => simp only [hr] at h; exact Option.noConfusion h
          | false =>
            simp only [hr] at h
            obtain ⟨l, hlen, hcf⟩ := ih h
            exact ⟨l, hlen, ChainFrom_mono all l rest (d :: rest)
              (List.subset_cons_self _ _) hcf⟩

theorem hcd_none_chain (all : List (StepId × Step)) :
    ∀ (f : Nat) (sid : StepId) (deps : List StepId),
      has_circular_dependency all sid f deps = none →
      ∃ l, l.length = f ∧ ChainFrom all deps l := by
  intro f
  induction f with
  | zero => intro sid deps _; exact ⟨[], rfl, trivial⟩
  | succ f ih =>
    intro sid deps h
    exact hcdStep_none_chain all sid f _ (ih sid) deps h

theorem ChainFrom_mem_keys (all : List (StepId × Step)) :
    ∀ (l : List StepId) (deps : List StepId), ChainFrom all deps l →
      ∀ x ∈ l, x ∈ all.map Prod.fst := by
  intro l
  induction l with
  | nil => intro _ _ x hx; simp at hx
  | cons y rest ih =>
    intro deps h x hx
    obtain ⟨hy, st, hst, hc⟩ := h
    rcases List.mem_cons.mp hx with hxy | hxr
    · subst hxy
      exact List.mem_map.mpr ⟨(x, st), lookupA_mem hst, rfl⟩
    · exact ih st.dependencies hc x hxr

theorem ChainFrom_chain' (all : List (StepId × Step)) :
    ∀ (l : List StepId) (deps : List StepId), ChainFrom all deps l →
      List.Chain' (edge all) l := by
  intro l
  induction l with
  | nil => intro _ _; exact List.chain'_nil
  | cons y rest ih =>
    intro deps h
    obtain ⟨hy, st, hst, hc⟩ := h
    rw [List.chain'_cons']
    refine ⟨fun b hb => ?_, ih st.dependencies hc⟩
    cases rest with
    | nil => simp at hb
    | cons z tail =>
      simp only [List.head?_cons, Option.mem_def, Option.some.injEq] at hb
      subst hb
      exact ⟨st, hst, hc.1⟩

theorem chain'_mem_transGen {α : Type} (r : α → α → Prop) :
    ∀ (l : List α) (x : α), List.Chain' r (x :: l) →
      ∀ b ∈ l, Relation.TransGen r x b := by
  intro l
  induction l with
  | nil => intro x _ b hb; simp at hb
  | cons y rest ih =>
    intro x hch b hb
    rw [List.chain'_cons] at hch
    rcases List.mem_cons.mp hb with hby | hbr
    · subst hby
      exact Relation.TransGen.single hch.1
    · exact Relation.TransGen.head hch.1 (ih y hch.2 b hbr)

theorem chain'_dup_cycle {α : Type} (r : α → α → Prop) :
    ∀ (l : List α) (a : α), List.Chain' r l → List.Sublist [a, a] l →
      Relation.TransGen r a a := by
  intro l
  induction l with
  | nil => intro a _ hsub; cases hsub
  | cons x rest ih =>
    intro a hch hsub
    cases hsub with
    | cons _ h => exact ih a hch.tail h
    | cons₂ _ h =>
      exact chain'_mem_transGen r rest _ hch _ (List.singleton_sublist.mp h)

theorem not_nodup_dup_sublist {α : Type} :
    ∀ (l : List α), ¬ l.Nodup → ∃ a, List.Sublist [a, a] l := by
  intro l h
  obtain ⟨a, ha⟩ := List.exists_duplicate_iff_not_nodup.mpr h
  exact ⟨a, List.duplicate_iff_sublist.mp ha⟩

theorem long_chain_cycle (all : List (StepId × Step)) (l : List StepId)
    (hlen : l.length = all.length + 1)
    (hmem : ∀ x ∈ l, x ∈ all.map Prod.fst)
    (hch : List.Chain' (edge all) l) :
    ∃ a, Relation.TransGen (edge all) a a := by
  by_cases hnd : l.Nodup
  · exfalso
    have h1 : l.toFinset.card = all.length + 1 := by
      rw [List.toFinset_card_of_nodup hnd, hlen]
    have h2 : l.toFinset ⊆ (all.map Prod.fst).toFinset := by
      intro x hx
      exact List.mem_toFinset.mpr (hmem x (List.mem_toFinset.mp hx))
    have h3 : (all.map Prod.fst).toFinset.card ≤ all.length := by
      calc (all.map Prod.fst).toFinset.card ≤ (all.map Prod.fst).length :=
            List.toFinset_card_le _
        _ = all.length := List.length_map _ _
    have := Finset.card_le_card h2
    omega
  · obtain ⟨a, ha⟩ := not_nodup_dup_sublist l hnd
    exact ⟨a, chain'_dup_cycle (edge all) l a hch ha⟩

theorem hcd_terminates (all : List (StepId × Step))
    (hacy : ∀ s, ¬ Relation.TransGen (edge all) s s)
    (sid : StepId) (deps : List StepId) :
    has_circular_dependency all sid (all.length + 1) deps ≠ none := by
  intro hnone
  obtain ⟨l, hlen, hcf⟩ := hcd_none_chain all (all.length + 1) sid deps hnone
  obtain ⟨a, ha⟩ := long_chain_cycle all l hlen
    (ChainFrom_mem_keys all l deps hcf) (ChainFrom_chain' all l deps hcf)
  exact hacy a ha

theorem checkCycles_clear (all : List (StepId × Step)) (f : Nat) :
    ∀ l, checkCyclesFuel all f l = some none →
      ∀ p ∈ l, has_circular_dependency all p.1 f p.2.dependencies = some false := by
  intro l
  induction l with
  | nil => intro _ p hp; simp at hp
  | cons q rest ih =>
    obtain ⟨sid, st⟩ := q
    intro h p hp
    cases hv : has_circular_dependency all sid f st.dependencies with
    | none =>
      simp only [checkCyclesFuel, hv] at h
      exact Option.noConfusion h
    | some b =>
      cases b with
      | true =>
        simp only [checkCyclesFuel, hv] at h
        exact absurd (Option.some.inj h) (fun he => Option.noConfusion he)
      | false =>
        simp only [checkCyclesFuel, hv] at h
        rcases List.mem_cons.mp hp with h1 | h2
        · subst h1; exact hv
        · exact ih h p h2

theorem checkCycles_all_false (all : List (StepId × Step)) (f : Nat) :
    ∀ l, (∀ p ∈ l, has_circular_dependency all p.1 f p.2.dependencies = some false) →
      checkCyclesFuel all f l = some none := by
  intro l
  induction l with
  | nil => intro _; rfl
  | cons q rest ih =>
    obtain ⟨sid, st⟩ := q
    intro h
    have hv := h (sid, st) (List.mem_cons_self _ _)
    simp only [checkCyclesFuel, hv]
    exact ih (fun p hp => h p (List.mem_cons_of_mem _ hp))

theorem checkCycles_found (all : List (StepId × Step)) (f : Nat) :
    ∀ l sid, checkCyclesFuel all f l = some (some sid) →
      ∃ st, (sid, st) ∈ l ∧
        has_circular_dependency all sid f st.dependencies = some true := by
  intro l
  induction l with
  | nil => intro sid h; simp [checkCyclesFuel] at h
  | cons q rest ih =>
    obtain ⟨sid0, st0⟩ := q
    intro sid h
    cases hv : has_circular_dependency all sid0 f st0.dependencies with
    | none =>
      simp only [checkCyclesFuel, hv] at h
      exact Option.noConfusion h
    | some b =>
      cases b with
      | true =>
        simp only [checkCyclesFuel, hv] at h
        have hs : sid0 = sid := by
          have := Option.some.inj h
          exact Option.some.inj this
        subst hs
        exact ⟨st0, List.mem_cons_self _ _, hv⟩
      | false =>
        simp only [checkCyclesFuel, hv] at h
        obtain ⟨st, hmem, ht⟩ := ih sid h
        exact ⟨st, List.mem_cons_of_mem _ hmem, ht⟩

theorem findMissingDep_none_iff (all : List (StepId × Step)) :
    ∀ l, findMissingDep all l = none ↔
      ∀ p ∈ l, ∀ d ∈ p.2.dependencies, (lookupA all d).isSome = true := by
  intro l
  induction l with
  | nil => simp [findMissingDep]
  | cons q rest ih =>
    obtain ⟨sid, st⟩ := q
    constructor
    · intro h
      cases hf : st.dependencies.find? (fun d => (lookupA all d).isNone) with
      | some d =>
        simp only [findMissingDep, hf] at h
        exact Option.noConfusion h
      | none =>
        simp only [findMissingDep, hf] at h
        intro p hp d hd
        rcases List.mem_cons.mp hp with h1 | h2
        · subst h1
          have hne := List.find?_eq_none.mp hf d hd
          cases hlk : lookupA all d with
          | none => exact absurd (by simp [hlk]) hne
          | some v => simp
        · exact (ih.mp h) p h2 d hd
    · intro h
      have hf : st.dependencies.find? (fun d => (lookupA all d).isNone) = none := by
        rw [List.find?_eq_none]
        intro d hd
        have hs := h (sid, st) (List.mem_cons_self _ _) d hd
        cases hlk : lookupA all d with
        | none => rw [hlk] at hs; simp at hs
        | some v => simp [hlk]
      simp only [findMissingDep, hf]
      exact ih.mpr (fun p hp => h p (List.mem_cons_of_mem _ hp))

theorem checkCycles_clear_acyclic (all : List (StepId × Step)) (f : Nat)
    (h : checkCyclesFuel all f all = some none) :
    ∀ s, ¬ Relation.TransGen (edge all) s s := by
  intro s hts
  obtain ⟨d, hedge, hrtg⟩ := Relation.TransGen.head'_iff.mp hts
  obtain ⟨st, hlook, hd⟩ := hedge
  have hmem : (s, st) ∈ all := lookupA_mem hlook
  have hfalse := checkCycles_clear all f all h (s, st) hmem
  exact hcd_false_exhaustive all f s st.dependencies hfalse d hd hrtg

/-- C1 (amended): with the step map's keys duplicate-free (a `HashMap`
invariant), `validate` terminates with `Ok` exactly when every referenced
dependency id resolves to an existing step and no step is reachable from
itself along dependency edges; a `CircularDependency` result is only
produced when a cycle really exists; on an acyclic graph with a missing
dependency id it terminates with an `InvalidDependency` error; and whenever
`validate` terminates at all on a cyclic graph, its result is a
`CircularDependency` error — however, on a cyclic graph the recursive cycle
check need not terminate, so the error is not always returned (see the
counterexample). -/
theorem validate_spec (g : WorkflowGraph)
    (hnd : (g.workflow.steps.map Prod.fst).Nodup) :
    ((∃ fuel, validateFuel g fuel = some (.ok ())) ↔
      (depsResolve g = true ∧ Acyclic g))
    ∧ (∀ fuel sid, validateFuel g fuel = some (.error (.CircularDependency sid)) →
        ¬ Acyclic g)
    ∧ (Acyclic g → depsResolve g = false →
        ∃ fuel sid dep, validateFuel g fuel
          = some (.error (.InvalidDependency sid dep)))
    ∧ (∀ fuel r, validateFuel g fuel = some r →
        Acyclic g ∨ ∃ sid, r = .error (.CircularDependency sid)) := by
  have hdr : depsResolve g = true ↔
      ∀ p ∈ g.workflow.steps, ∀ d ∈ p.2.dependencies,
        (lookupA g.workflow.steps d).isSome = true := by
    unfold depsResolve
    simp [List.all_eq_true]
  have key1 : ∀ fuel, checkCyclesFuel g.workflow.steps fuel g.workflow.steps
      = some none → Acyclic g :=
    fun fuel h s => checkCycles_clear_acyclic g.workflow.steps fuel h s
  have hterm : Acyclic g → ∀ p ∈ g.workflow.steps,
      has_circular_dependency g.workflow.steps p.1
        (g.workflow.steps.length + 1) p.2.dependencies = some false := by
    intro hacy p hp
    cases hv : has_circular_dependency g.workflow.steps p.1
        (g.workflow.steps.length + 1) p.2.dependencies with
    | none => exact absurd hv (hcd_terminates g.workflow.steps hacy p.1 p.2.dependencies)
    | some b =>
      cases b with
      | false => rfl
      | true =>
        exfalso
        obtain ⟨d, hd, hrtg⟩ :=
          hcd_true_sound g.workflow.steps _ p.1 p.2.dependencies hv
        have hlook : lookupA g.workflow.steps p.1 = some p.2 :=
          mem_lookupA (by simpa using hp) hnd
        exact hacy p.1 (Relation.TransGen.head' ⟨p.2, hlook, hd⟩ hrtg)
  have hclear : Acyclic g → checkCyclesFuel g.workflow.steps
      (g.workflow.steps.length + 1) g.workflow.steps = some none :=
    fun hacy => checkCycles_all_false g.workflow.steps _ g.workflow.steps (hterm hacy)
  refine ⟨⟨?_, ?_⟩, ?_, ?_, ?_⟩
  · rintro ⟨fuel, hok⟩
    unfold validateFuel at hok
    cases hc : checkCyclesFuel g.workflow.steps fuel g.workflow.steps with
    | none =>
      rw [hc] at hok
      exact Option.noConfusion hok
    | some o =>
      cases o with
      | some sid =>
        rw [hc] at hok
        simp at hok
      | none =>
        rw [hc] at hok
        cases hm : findMissingDep g.workflow.steps g.workflow.steps with
        | some pr =>
          obtain ⟨sid, dep⟩ := pr
          rw [hm] at hok
          simp at hok
        | none =>
          exact ⟨hdr.mpr ((findMissingDep_none_iff g.workflow.steps
            g.workflow.steps).mp hm), key1 fuel hc⟩
  · rintro ⟨hdeps, hacy⟩
    refine ⟨g.workflow.steps.length + 1, ?_⟩
    unfold validateFuel
    rw [hclear hacy,
      (findMissingDep_none_iff g.workflow.steps g.workflow.steps).mpr (hdr.mp hdeps)]
  · intro fuel sid hcirc
    unfold validateFuel at hcirc
    cases hc : checkCyclesFuel g.workflow.steps fuel g.workflow.steps with
    | none =>
      rw [hc] at hcirc
      exact Option.noConfusion hcirc
    | some o =>
      cases o with
      | none =>
        rw [hc] at hcirc
        cases hm : findMissingDep g.workflow.steps g.workflow.steps with
        | some pr =>
          obtain ⟨sid2, dep⟩ := pr
          rw [hm] at hcirc
          simp at hcirc
        | none =>
          rw [hm] at hcirc
          simp at hcirc
      | some s0 =>
        rw [hc] at hcirc
        have hs : s0 = sid := by
          have h1 := Option.some.inj hcirc
          have h2 := Except.error.inj h1
          exact WorkflowGraphError.CircularDependency.inj h2
        subst hs
        obtain ⟨st, hmem, htrue⟩ :=
          checkCycles_found g.workflow.steps fuel g.workflow.steps s0 hc
        intro hacy
        obtain ⟨d, hd, hrtg⟩ :=
          hcd_true_sound g.workflow.steps fuel s0 st.dependencies htrue
        have hlook := mem_lookupA hmem hnd
        exact hacy s0 (Relation.TransGen.head' ⟨st, hlook, hd⟩ hrtg)
  · intro hacy hdepsf
    refine ⟨g.workflow.steps.length + 1, ?_⟩
    cases hm : findMissingDep g.workflow.steps g.workflow.steps with
    | none =>
      exfalso
      have := hdr.mpr ((findMissingDep_none_iff g.workflow.steps
        g.workflow.steps).mp hm)
      rw [hdepsf] at this
      exact Bool.noConfusion this
    | some pr =>
      obtain ⟨sid, dep⟩ := pr
      refine ⟨sid, dep, ?_⟩
      unfold validateFuel
      rw [hclear hacy, hm]
  · intro fuel r hr
    unfold validateFuel at hr
    cases hc : checkCyclesFuel g.workflow.steps fuel g.workflow.steps with
    | none =>
      rw [hc] at hr
      exact Option.noConfusion hr
    | some o =>
      cases o with
      | some sid =>
        rw [hc] at hr
        exact Or.inr ⟨sid, (Option.some.inj hr).symm⟩
      | none => exact Or.inl (key1 fuel hc)

/-- Witness for C1 at the acyclic two-step graph: applying the equivalence
at a terminating run recovers both spec-side invariants. -/
theorem validate_spec_witness : depsResolve gTwo = true ∧ Acyclic gTwo :=
  (validate_spec gTwo (by decide)).1.mp ⟨3, by decide⟩

theorem gBad_hcd (f : Nat) :
    has_circular_dependency gBad.workflow.steps 0 f [1] = none
    ∧ has_circular_dependency gBad.workflow.steps 0 f [2] = none := by
  induction f with
  | zero => exact ⟨rfl, rfl⟩
  | succ f ih =>
    constructor
    · show hcdStep _ 0 _ [1] = none
      have h1 : lookupA gBad.workflow.steps 1 = some (mkStep 1 [2]) := rfl
      simp only [hcdStep, h1]
      rw [show (mkStep 1 [2]).dependencies = [2] from rfl, ih.2]
      simp
    · show hcdStep _ 0 _ [2] = none
      have h2 : lookupA gBad.workflow.steps 2 = some (mkStep 2 [1]) := rfl
      simp only [hcdStep, h2]
      rw [show (mkStep 2 [1]).dependencies = [1] from rfl, ih.1]
      simp

theorem gBad_validate_none (f : Nat) : validateFuel gBad f = none := by
  have h0 : checkCyclesFuel gBad.workflow.steps f gBad.workflow.steps = none := by
    show checkCyclesFuel gBad.workflow.steps f
      ((0, mkStep 0 [1]) :: (1, mkStep 1 [2]) :: [(2, mkStep 2 [1])]) = none
    simp only [checkCyclesFuel]
    rw [show (mkStep 0 [1]).dependencies = [1] from rfl, (gBad_hcd f).1]
  unfold validateFuel
  rw [h0]

/-- Counterexample for C1 as stated: `gBad` contains a dependency cycle
(steps 1 and 2 depend on each other), yet `validate` never returns at all —
at every recursion depth the cycle check started from step 0 is still
running — so no `CircularDependency` error is ever produced. -/
theorem validate_spec_cex : cycleExists gBad ∧ validateDiverges gBad := by
  constructor
  · have e12 : edge gBad.workflow.steps 1 2 := ⟨mkStep 1 [2], rfl, by decide⟩
    have e21 : edge gBad.workflow.steps 2 1 := ⟨mkStep 2 [1], rfl, by decide⟩
    exact ⟨1, Relation.TransGen.head e12 (Relation.TransGen.single e21)⟩
  · exact gBad_validate_none

/-- C8: the claim that `has_circular_dependency` is total is contradicted by
the code: on `gBad` — whose cycle through steps 1 and 2 does not pass
through step 0 — the check started at step 0 makes an unbounded chain of
recursive calls (`none` at every fuel), and `validate`, which starts with
step 0, never returns a result. -/
theorem has_circular_dependency_diverges :
    hcdDiverges gBad.workflow.steps 0 [1] ∧ validateDiverges gBad :=
  ⟨fun f => (gBad_hcd f).1, gBad_validate_none⟩
